import Mathlib

/-!
Verification of the seam-carving engine of this repository.

The definitions below are a shallow embedding of `src/seam_carving.cpp`
(and the argument-validation guards of `src/gpu_energy.cpp`):

* pixel buffers (`unsigned char*`) are modelled as total functions
  `Nat → ℕ` giving the byte at each flat index; the C++ code only reads
  in-bounds indices under the stated preconditions, so a total function
  is an exact model of those reads;
* `float` arithmetic is modelled exactly: the Sobel/luminance arithmetic
  over `ℚ`, with `Real.sqrt` for `sqrt`, and the seam-finding algorithms
  are stated over any linearly ordered carrier so that they cover both
  the exact model and the `ℝ`-valued energies used by the driver;
* the seam finders `find_low_energy_seam_greedy` / `find_low_energy_seam_dyn`
  follow the C++ loops line by line: row-0 scan keeping the first strictly
  smaller value (`minScan`), and the three-candidate selection that checks
  the left neighbour and then the right neighbour against the running best
  (`pick3`), which the greedy walk and the DP backtrack share verbatim;
* the DP table `dp` follows the C++ fill order: value from straight above,
  then `min` with the upper-left, then `min` with the upper-right.
-/

namespace SeamCarving

/-- Algorithm selector, from `seam_carving.h` (`enum class Algorithm`). -/
inductive Algorithm where
  | GREEDY : Algorithm
  | DYNAMIC : Algorithm

/-- Left-to-right scan for the index of the minimum of `f` over `0..k`,
keeping the current index unless a strictly smaller value appears: the
loop `for (x = 1; x < width; x++) if (f x < min) ...` of the C++ code,
with `k = width - 1`. -/
def minScan {α : Type} [LinearOrder α] (f : Nat → α) : Nat → Nat
  | 0 => 0
  | k + 1 => if f (k + 1) < f (minScan f k) then k + 1 else minScan f k

/-- Running best after the left-neighbour check of the three-candidate
selection: `cx`, replaced by `cx - 1` if `current_x > 0` and the value
there is strictly smaller. -/
def pick3a {α : Type} [LinearOrder α] (f : Nat → α) (cx : Nat) : Nat :=
  if 0 < cx ∧ f (cx - 1) < f cx then cx - 1 else cx

/-- The three-candidate selection shared by the greedy walk and the DP
backtrack in `seam_carving.cpp`: start from `cx`, replace by `cx - 1`
if its value is strictly smaller, then replace by `cx + 1` if its value
is strictly smaller than the running best. -/
def pick3 {α : Type} [LinearOrder α] (f : Nat → α) (width cx : Nat) : Nat :=
  if cx < width - 1 ∧ f (cx + 1) < f (pick3a f cx) then cx + 1 else pick3a f cx

/-- Seam x-coordinate at row `y` computed by `find_low_energy_seam_greedy`. -/
def greedyX {α : Type} [LinearOrder α] (e : Nat → Nat → α) (width : Nat) : Nat → Nat
  | 0 => minScan (e 0) (width - 1)
  | y + 1 => pick3 (e (y + 1)) width (greedyX e width y)

/-- Embedding of `find_low_energy_seam_greedy` (seam_carving.cpp:10-50):
the seam vector of length `height`. -/
def find_low_energy_seam_greedy {α : Type} [LinearOrder α]
    (e : Nat → Nat → α) (width height : Nat) : List Nat :=
  (List.range height).map (greedyX e width)

/-- Embedding of the DP table of `find_low_energy_seam_dyn`
(seam_carving.cpp:57-84): `dp 0 x = e 0 x`, and each later cell takes the
value from straight above, then `min`s in the upper-left neighbour when
`0 < x`, then the upper-right neighbour when `x < width - 1`, in the
order the C++ code performs the updates. -/
def dp {α : Type} [LinearOrder α] [Add α] (e : Nat → Nat → α) (width : Nat) :
    Nat → Nat → α
  | 0, x => e 0 x
  | y + 1, x =>
    let a := dp e width y x + e (y + 1) x
    let b := if 0 < x then min a (dp e width y (x - 1) + e (y + 1) x) else a
    if x < width - 1 then min b (dp e width y (x + 1) + e (y + 1) x) else b

/-- Backtrack of `find_low_energy_seam_dyn`, indexed by distance from the
bottom row: `dynFromBot 0` is the argmin scan over the bottom DP row
(seam_carving.cpp:87-94) and each further step applies the shared
three-candidate selection to the DP row above (seam_carving.cpp:100-119). -/
def dynFromBot {α : Type} [LinearOrder α] [Add α]
    (e : Nat → Nat → α) (width height : Nat) : Nat → Nat
  | 0 => minScan (fun x => dp e width (height - 1) x) (width - 1)
  | k + 1 => pick3 (fun x => dp e width (height - 1 - (k + 1)) x) width
      (dynFromBot e width height k)

/-- Seam x-coordinate at row `y` computed by `find_low_energy_seam_dyn`. -/
def dynX {α : Type} [LinearOrder α] [Add α]
    (e : Nat → Nat → α) (width height y : Nat) : Nat :=
  dynFromBot e width height (height - 1 - y)

/-- Embedding of `find_low_energy_seam_dyn` (seam_carving.cpp:52-122). -/
def find_low_energy_seam_dyn {α : Type} [LinearOrder α] [Add α]
    (e : Nat → Nat → α) (width height : Nat) : List Nat :=
  (List.range height).map (dynX e width height)

/-- Embedding of the dispatcher `find_low_energy_seam`
(seam_carving.cpp:124-138). -/
def find_low_energy_seam {α : Type} [LinearOrder α] [Add α]
    (e : Nat → Nat → α) (width height : Nat) : Algorithm → List Nat
  | Algorithm.GREEDY => find_low_energy_seam_greedy e width height
  | Algorithm.DYNAMIC => find_low_energy_seam_dyn e width height

/-- Total cost of a seam (given as the list the finders return): the sum
over `y` of `energy[y][seam[y]]`. -/
def seamCost {α : Type} [AddCommMonoid α]
    (e : Nat → Nat → α) (height : Nat) (s : List Nat) : α :=
  ∑ y ∈ Finset.range height, e y (s.getD y 0)

section SeamLemmas

variable {α : Type} [LinearOrder α]

lemma minScan_le (f : Nat → α) (k : Nat) : minScan f k ≤ k := by
  induction k with
  | zero => simp [minScan]
  | succ k ih =>
    rw [minScan]
    split_ifs
    · exact Nat.le_refl _
    · exact Nat.le_succ_of_le ih

lemma minScan_min (f : Nat → α) (k : Nat) :
    ∀ x ≤ k, f (minScan f k) ≤ f x := by
  induction k with
  | zero =>
    intro x hx
    rw [Nat.le_zero.mp hx]
    simp [minScan]
  | succ k ih =>
    intro x hx
    rw [minScan]
    split_ifs with h
    · rcases Nat.lt_succ_iff_lt_or_eq.mp (Nat.lt_succ_of_le hx) with h' | h'
      · exact le_of_lt (lt_of_lt_of_le h (ih x (Nat.lt_succ_iff.mp h')))
      · exact le_of_eq (congrArg f h'.symm)
    · rcases Nat.lt_succ_iff_lt_or_eq.mp (Nat.lt_succ_of_le hx) with h' | h'
      · exact ih x (Nat.lt_succ_iff.mp h')
      · subst h'
        exact le_of_not_lt h

lemma minScan_first (f : Nat → α) (k : Nat) :
    ∀ x < minScan f k, f (minScan f k) < f x := by
  induction k with
  | zero => simp [minScan]
  | succ k ih =>
    rw [minScan]
    split_ifs with h
    · intro x hx
      exact lt_of_lt_of_le h (minScan_min f k x (Nat.lt_succ_iff.mp hx))
    · exact ih

lemma pick3a_mem (f : Nat → α) (cx : Nat) :
    pick3a f cx = cx ∨ (0 < cx ∧ pick3a f cx = cx - 1) := by
  unfold pick3a
  split_ifs with h
  · exact Or.inr ⟨h.1, rfl⟩
  · exact Or.inl rfl

lemma pick3a_le_self (f : Nat → α) (cx : Nat) : f (pick3a f cx) ≤ f cx := by
  unfold pick3a
  split_ifs with h
  · exact le_of_lt h.2
  · exact le_refl _

lemma pick3a_le_left (f : Nat → α) (cx : Nat) (hc : 0 < cx) :
    f (pick3a f cx) ≤ f (cx - 1) := by
  unfold pick3a
  split_ifs with h
  · exact le_refl _
  · rw [not_and] at h
    exact le_of_not_lt (h hc)

lemma pick3_mem (f : Nat → α) (width cx : Nat) :
    pick3 f width cx = cx ∨ (0 < cx ∧ pick3 f width cx = cx - 1) ∨
      (cx < width - 1 ∧ pick3 f width cx = cx + 1) := by
  unfold pick3
  split_ifs with h
  · exact Or.inr (Or.inr ⟨h.1, rfl⟩)
  · rcases pick3a_mem f cx with h' | ⟨hc, h'⟩
    · exact Or.inl h'
    · exact Or.inr (Or.inl ⟨hc, h'⟩)

lemma pick3_le_self (f : Nat → α) (width cx : Nat) :
    f (pick3 f width cx) ≤ f cx := by
  unfold pick3
  split_ifs with h
  · exact le_of_lt (lt_of_lt_of_le h.2 (pick3a_le_self f cx))
  · exact pick3a_le_self f cx

lemma pick3_le_left (f : Nat → α) (width cx : Nat) (hc : 0 < cx) :
    f (pick3 f width cx) ≤ f (cx - 1) := by
  unfold pick3
  split_ifs with h
  · exact le_of_lt (lt_of_lt_of_le h.2 (pick3a_le_left f cx hc))
  · exact pick3a_le_left f cx hc

lemma pick3_le_right (f : Nat → α) (width cx : Nat) (hc : cx < width - 1) :
    f (pick3 f width cx) ≤ f (cx + 1) := by
  unfold pick3
  split_ifs with h
  · exact le_refl _
  · rw [not_and] at h
    exact le_of_not_lt (h hc)

lemma pick3_tie_self (f : Nat → α) (width cx : Nat)
    (h : f cx ≤ f (pick3 f width cx)) : pick3 f width cx = cx := by
  unfold pick3 at h ⊢
  split_ifs at h ⊢ with h1
  · exact absurd (lt_of_lt_of_le (lt_of_lt_of_le h1.2 (pick3a_le_self f cx)) h)
      (lt_irrefl _)
  · unfold pick3a at h ⊢
    split_ifs at h ⊢ with h2
    · exact absurd (lt_of_lt_of_le h2.2 h) (lt_irrefl _)
    · rfl

lemma pick3_tie_left (f : Nat → α) (width cx : Nat) (hc : 0 < cx)
    (h : f (cx - 1) ≤ f (pick3 f width cx)) :
    pick3 f width cx = cx ∨ pick3 f width cx = cx - 1 := by
  unfold pick3 at h ⊢
  split_ifs at h ⊢ with h1
  · exact absurd (lt_of_lt_of_le (lt_of_lt_of_le h1.2 (pick3a_le_left f cx hc)) h)
      (lt_irrefl _)
  · rcases pick3a_mem f cx with h' | ⟨_, h'⟩
    · exact Or.inl h'
    · exact Or.inr h'

lemma pick3_lt_width (f : Nat → α) (width cx : Nat) (hcx : cx < width) :
    pick3 f width cx < width := by
  rcases pick3_mem f width cx with hm | ⟨hc, hm⟩ | ⟨hc, hm⟩ <;> omega

lemma getD_map_range {β : Type} (f : Nat → β) (d : β) {y h : Nat} (hy : y < h) :
    ((List.range h).map f).getD y d = f y := by
  rw [List.getD_eq_getElem?_getD, List.getElem?_map, List.getElem?_range hy]
  rfl

lemma greedyX_lt (e : Nat → Nat → α) (width : Nat) (hw : 1 ≤ width) :
    ∀ y, greedyX e width y < width := by
  intro y
  induction y with
  | zero =>
    have := minScan_le (e 0) (width - 1)
    rw [greedyX]
    omega
  | succ y ih =>
    rw [greedyX]
    exact pick3_lt_width _ width _ ih

lemma dynFromBot_lt [Add α] (e : Nat → Nat → α) (width height : Nat)
    (hw : 1 ≤ width) : ∀ k, dynFromBot e width height k < width := by
  intro k
  induction k with
  | zero =>
    have := minScan_le (fun x => dp e width (height - 1) x) (width - 1)
    rw [dynFromBot]
    omega
  | succ k ih =>
    rw [dynFromBot]
    exact pick3_lt_width _ width _ ih

lemma dynX_lt [Add α] (e : Nat → Nat → α) (width height : Nat)
    (hw : 1 ≤ width) (y : Nat) : dynX e width height y < width :=
  dynFromBot_lt e width height hw _

lemma dynX_succ [Add α] (e : Nat → Nat → α) (width height y : Nat)
    (hy : y + 1 < height) :
    dynX e width height y =
      pick3 (fun x => dp e width y x) width (dynX e width height (y + 1)) := by
  have h1 : height - 1 - y = (height - 1 - (y + 1)) + 1 := by omega
  rw [dynX, h1, dynFromBot]
  have h2 : height - 1 - (height - 1 - (y + 1) + 1) = y := by omega
  rw [h2]
  rfl

end SeamLemmas

/-- C2: for every energy matrix with `width ≥ 1` and `height ≥ 1`, the
seam returned by `find_low_energy_seam` (under either algorithm) has
length exactly `height`, every entry lies in `[0, width - 1]`, and
consecutive entries differ by at most 1. -/
theorem seam_validity {α : Type} [LinearOrder α] [Add α]
    (e : Nat → Nat → α) (width height : Nat) (alg : Algorithm)
    (hw : 1 ≤ width) (hh : 1 ≤ height) :
    (find_low_energy_seam e width height alg).length = height ∧
    (∀ y < height, (find_low_energy_seam e width height alg).getD y 0 < width) ∧
    (∀ y, y + 1 < height →
      (((find_low_energy_seam e width height alg).getD (y + 1) 0 : ℤ) -
        ((find_low_energy_seam e width height alg).getD y 0 : ℤ)).natAbs ≤ 1) := by
  cases alg with
  | GREEDY =>
    rw [find_low_energy_seam, find_low_energy_seam_greedy]
    refine ⟨by simp, fun y hy => ?_, fun y hy => ?_⟩
    · rw [getD_map_range _ _ hy]
      exact greedyX_lt e width hw y
    · rw [getD_map_range _ _ hy, getD_map_range _ _ (by omega : y < height)]
      have hmem := pick3_mem (e (y + 1)) width (greedyX e width y)
      rw [greedyX]
      rcases hmem with hm | ⟨hc, hm⟩ | ⟨hc, hm⟩ <;> rw [hm] <;> omega
  | DYNAMIC =>
    rw [find_low_energy_seam, find_low_energy_seam_dyn]
    refine ⟨by simp, fun y hy => ?_, fun y hy => ?_⟩
    · rw [getD_map_range _ _ hy]
      exact dynX_lt e width height hw y
    · rw [getD_map_range _ _ hy, getD_map_range _ _ (by omega : y < height)]
      rw [dynX_succ e width height y hy]
      have hmem := pick3_mem (fun x => dp e width y x) width
        (dynX e width height (y + 1))
      rcases hmem with hm | ⟨hc, hm⟩ | ⟨hc, hm⟩ <;> rw [hm] <;> omega

/-- Witness for `seam_validity` at a concrete 2×2 energy matrix. -/
theorem seam_validity_witness :
    (find_low_energy_seam (fun y x => ((y + x : Nat) : ℚ)) 2 2
        Algorithm.DYNAMIC).length = 2 ∧
    (∀ y < 2, (find_low_energy_seam (fun y x => ((y + x : Nat) : ℚ)) 2 2
        Algorithm.DYNAMIC).getD y 0 < 2) ∧
    (∀ y, y + 1 < 2 →
      (((find_low_energy_seam (fun y x => ((y + x : Nat) : ℚ)) 2 2
          Algorithm.DYNAMIC).getD (y + 1) 0 : ℤ) -
        ((find_low_energy_seam (fun y x => ((y + x : Nat) : ℚ)) 2 2
          Algorithm.DYNAMIC).getD y 0 : ℤ)).natAbs ≤ 1) :=
  seam_validity (fun y x => ((y + x : Nat) : ℚ)) 2 2 Algorithm.DYNAMIC
    (by norm_num) (by norm_num)

/-- C4: `find_low_energy_seam_greedy` sets `seam[0]` to the lowest `x`
attaining the minimum energy of row 0 (first strictly smaller value wins),
and for each subsequent row chooses among `{prev_x, prev_x - 1, prev_x + 1}`
(clamped to `[0, width - 1]`) a candidate of minimum energy, preferring
`prev_x` over the left neighbour and the left neighbour over the right
neighbour (a candidate replaces the current best only when strictly
smaller). -/
theorem greedy_selection_rule {α : Type} [LinearOrder α]
    (e : Nat → Nat → α) (width height : Nat) (hw : 1 ≤ width) (hh : 1 ≤ height) :
    ((find_low_energy_seam_greedy e width height).getD 0 0 < width ∧
      (∀ x < width,
        e 0 ((find_low_energy_seam_greedy e width height).getD 0 0) ≤ e 0 x) ∧
      (∀ x < (find_low_energy_seam_greedy e width height).getD 0 0,
        e 0 ((find_low_energy_seam_greedy e width height).getD 0 0) < e 0 x)) ∧
    (∀ y, y + 1 < height →
      ((find_low_energy_seam_greedy e width height).getD (y + 1) 0 =
          (find_low_energy_seam_greedy e width height).getD y 0 ∨
        (0 < (find_low_energy_seam_greedy e width height).getD y 0 ∧
          (find_low_energy_seam_greedy e width height).getD (y + 1) 0 =
            (find_low_energy_seam_greedy e width height).getD y 0 - 1) ∨
        ((find_low_energy_seam_greedy e width height).getD y 0 < width - 1 ∧
          (find_low_energy_seam_greedy e width height).getD (y + 1) 0 =
            (find_low_energy_seam_greedy e width height).getD y 0 + 1)) ∧
      (e (y + 1) ((find_low_energy_seam_greedy e width height).getD (y + 1) 0) ≤
        e (y + 1) ((find_low_energy_seam_greedy e width height).getD y 0)) ∧
      (0 < (find_low_energy_seam_greedy e width height).getD y 0 →
        e (y + 1) ((find_low_energy_seam_greedy e width height).getD (y + 1) 0) ≤
          e (y + 1) ((find_low_energy_seam_greedy e width height).getD y 0 - 1)) ∧
      ((find_low_energy_seam_greedy e width height).getD y 0 < width - 1 →
        e (y + 1) ((find_low_energy_seam_greedy e width height).getD (y + 1) 0) ≤
          e (y + 1) ((find_low_energy_seam_greedy e width height).getD y 0 + 1)) ∧
      (e (y + 1) ((find_low_energy_seam_greedy e width height).getD y 0) ≤
          e (y + 1) ((find_low_energy_seam_greedy e width height).getD (y + 1) 0) →
        (find_low_energy_seam_greedy e width height).getD (y + 1) 0 =
          (find_low_energy_seam_greedy e width height).getD y 0) ∧
      (0 < (find_low_energy_seam_greedy e width height).getD y 0 →
        e (y + 1) ((find_low_energy_seam_greedy e width height).getD y 0 - 1) ≤
          e (y + 1) ((find_low_energy_seam_greedy e width height).getD (y + 1) 0) →
        (find_low_energy_seam_greedy e width height).getD (y + 1) 0 =
            (find_low_energy_seam_greedy e width height).getD y 0 ∨
          (find_low_energy_seam_greedy e width height).getD (y + 1) 0 =
            (find_low_energy_seam_greedy e width height).getD y 0 - 1)) := by
  have hg : ∀ y < height,
      (find_low_energy_seam_greedy e width height).getD y 0 = greedyX e width y :=
    fun y hy => getD_map_range _ _ hy
  constructor
  · rw [hg 0 (by omega), greedyX]
    refine ⟨by have := minScan_le (e 0) (width - 1); omega, fun x hx => ?_,
      minScan_first (e 0) (width - 1)⟩
    exact minScan_min (e 0) (width - 1) x (by omega)
  · intro y hy
    rw [hg (y + 1) hy, hg y (by omega), greedyX]
    exact ⟨pick3_mem _ width _, pick3_le_self _ width _,
      fun hc => pick3_le_left _ width _ hc,
      fun hc => pick3_le_right _ width _ hc,
      fun h => pick3_tie_self _ width _ h,
      fun hc h => pick3_tie_left _ width _ hc h⟩

/-- Witness for `greedy_selection_rule` at a concrete 2×2 energy matrix. -/
theorem greedy_selection_rule_witness :
    ((find_low_energy_seam_greedy (fun y x => ((y * x : Nat) : ℚ)) 2 2).getD 0 0 < 2 ∧
      (∀ x < 2,
        (fun y x => ((y * x : Nat) : ℚ)) 0
            ((find_low_energy_seam_greedy (fun y x => ((y * x : Nat) : ℚ)) 2 2).getD 0 0) ≤
          (fun y x => ((y * x : Nat) : ℚ)) 0 x) ∧
      (∀ x < (find_low_energy_seam_greedy (fun y x => ((y * x : Nat) : ℚ)) 2 2).getD 0 0,
        (fun y x => ((y * x : Nat) : ℚ)) 0
            ((find_low_energy_seam_greedy (fun y x => ((y * x : Nat) : ℚ)) 2 2).getD 0 0) <
          (fun y x => ((y * x : Nat) : ℚ)) 0 x)) ∧
    (∀ y, y + 1 < 2 →
      ((find_low_energy_seam_greedy (fun y x => ((y * x : Nat) : ℚ)) 2 2).getD (y + 1) 0 =
          (find_low_energy_seam_greedy (fun y x => ((y * x : Nat) : ℚ)) 2 2).getD y 0 ∨
        (0 < (find_low_energy_seam_greedy (fun y x => ((y * x : Nat) : ℚ)) 2 2).getD y 0 ∧
          (find_low_energy_seam_greedy (fun y x => ((y * x : Nat) : ℚ)) 2 2).getD (y + 1) 0 =
            (find_low_energy_seam_greedy (fun y x => ((y * x : Nat) : ℚ)) 2 2).getD y 0 - 1) ∨
        ((find_low_energy_seam_greedy (fun y x => ((y * x : Nat) : ℚ)) 2 2).getD y 0 < 2 - 1 ∧
          (find_low_energy_seam_greedy (fun y x => ((y * x : Nat) : ℚ)) 2 2).getD (y + 1) 0 =
            (find_low_energy_seam_greedy (fun y x => ((y * x : Nat) : ℚ)) 2 2).getD y 0 + 1)) ∧
      ((fun y x => ((y * x : Nat) : ℚ)) (y + 1)
          ((find_low_energy_seam_greedy (fun y x => ((y * x : Nat) : ℚ)) 2 2).getD (y + 1) 0) ≤
        (fun y x => ((y * x : Nat) : ℚ)) (y + 1)
          ((find_low_energy_seam_greedy (fun y x => ((y * x : Nat) : ℚ)) 2 2).getD y 0)) ∧
      (0 < (find_low_energy_seam_greedy (fun y x => ((y * x : Nat) : ℚ)) 2 2).getD y 0 →
        (fun y x => ((y * x : Nat) : ℚ)) (y + 1)
            ((find_low_energy_seam_greedy (fun y x => ((y * x : Nat) : ℚ)) 2 2).getD (y + 1) 0) ≤
          (fun y x => ((y * x : Nat) : ℚ)) (y + 1)
            ((find_low_energy_seam_greedy (fun y x => ((y * x : Nat) : ℚ)) 2 2).getD y 0 - 1)) ∧
      ((find_low_energy_seam_greedy (fun y x => ((y * x : Nat) : ℚ)) 2 2).getD y 0 < 2 - 1 →
        (fun y x => ((y * x : Nat) : ℚ)) (y + 1)
            ((find_low_energy_seam_greedy (fun y x => ((y * x : Nat) : ℚ)) 2 2).getD (y + 1) 0) ≤
          (fun y x => ((y * x : Nat) : ℚ)) (y + 1)
            ((find_low_energy_seam_greedy (fun y x => ((y * x : Nat) : ℚ)) 2 2).getD y 0 + 1)) ∧
      ((fun y x => ((y * x : Nat) : ℚ)) (y + 1)
          ((find_low_energy_seam_greedy (fun y x => ((y * x : Nat) : ℚ)) 2 2).getD y 0) ≤
          (fun y x => ((y * x : Nat) : ℚ)) (y + 1)
            ((find_low_energy_seam_greedy (fun y x => ((y * x : Nat) : ℚ)) 2 2).getD (y + 1) 0) →
        (find_low_energy_seam_greedy (fun y x => ((y * x : Nat) : ℚ)) 2 2).getD (y + 1) 0 =
          (find_low_energy_seam_greedy (fun y x => ((y * x : Nat) : ℚ)) 2 2).getD y 0) ∧
      (0 < (find_low_energy_seam_greedy (fun y x => ((y * x : Nat) : ℚ)) 2 2).getD y 0 →
        (fun y x => ((y * x : Nat) : ℚ)) (y + 1)
            ((find_low_energy_seam_greedy (fun y x => ((y * x : Nat) : ℚ)) 2 2).getD y 0 - 1) ≤
          (fun y x => ((y * x : Nat) : ℚ)) (y + 1)
            ((find_low_energy_seam_greedy (fun y x => ((y * x : Nat) : ℚ)) 2 2).getD (y + 1) 0) →
        (find_low_energy_seam_greedy (fun y x => ((y * x : Nat) : ℚ)) 2 2).getD (y + 1) 0 =
            (find_low_energy_seam_greedy (fun y x => ((y * x : Nat) : ℚ)) 2 2).getD y 0 ∨
          (find_low_energy_seam_greedy (fun y x => ((y * x : Nat) : ℚ)) 2 2).getD (y + 1) 0 =
            (find_low_energy_seam_greedy (fun y x => ((y * x : Nat) : ℚ)) 2 2).getD y 0 - 1)) :=
  greedy_selection_rule (fun y x => ((y * x : Nat) : ℚ)) 2 2 (by norm_num) (by norm_num)

section DPLemmas

variable {α : Type} [LinearOrderedAddCommMonoid α] (e : Nat → Nat → α) (width : Nat)

lemma dp_zero (x : Nat) : dp e width 0 x = e 0 x := rfl

lemma dp_succ (y x : Nat) :
    dp e width (y + 1) x =
      if x < width - 1 then
        min (if 0 < x then
              min (dp e width y x + e (y + 1) x) (dp e width y (x - 1) + e (y + 1) x)
            else dp e width y x + e (y + 1) x)
          (dp e width y (x + 1) + e (y + 1) x)
      else
        if 0 < x then
          min (dp e width y x + e (y + 1) x) (dp e width y (x - 1) + e (y + 1) x)
        else dp e width y x + e (y + 1) x := by
  rw [dp]

lemma dp_succ_le_above (y x : Nat) :
    dp e width (y + 1) x ≤ dp e width y x + e (y + 1) x := by
  rw [dp_succ]
  split_ifs <;>
    first
      | exact le_trans (min_le_left _ _) (min_le_left _ _)
      | exact min_le_left _ _
      | exact le_refl _

lemma dp_succ_le_left (y x : Nat) (hx : 0 < x) :
    dp e width (y + 1) x ≤ dp e width y (x - 1) + e (y + 1) x := by
  rw [dp_succ]
  split_ifs <;>
    first
      | (exfalso; omega)
      | exact le_trans (min_le_left _ _) (min_le_right _ _)
      | exact min_le_right _ _

lemma dp_succ_le_right (y x : Nat) (hx : x < width - 1) :
    dp e width (y + 1) x ≤ dp e width y (x + 1) + e (y + 1) x := by
  rw [dp_succ]
  split_ifs <;>
    first
      | (exfalso; omega)
      | exact min_le_right _ _

lemma le_dp_succ (y x : Nat) (c : α)
    (h0 : c ≤ dp e width y x + e (y + 1) x)
    (hl : 0 < x → c ≤ dp e width y (x - 1) + e (y + 1) x)
    (hr : x < width - 1 → c ≤ dp e width y (x + 1) + e (y + 1) x) :
    c ≤ dp e width (y + 1) x := by
  rw [dp_succ]
  split_ifs <;>
    first
      | exact le_min (le_min h0 (hl (by omega))) (hr (by omega))
      | exact le_min h0 (hr (by omega))
      | exact le_min h0 (hl (by omega))
      | exact h0

/-- Any 8-connected in-bounds seam costs at least `dp y (s y)` over its
first `y + 1` rows: the DP table is a lower bound on every seam prefix. -/
lemma dp_le_cost (s : Nat → Nat) (hb : ∀ t, s t < width)
    (hadj : ∀ t, s t = s (t + 1) ∨ s t + 1 = s (t + 1) ∨ s t = s (t + 1) + 1) :
    ∀ y, dp e width y (s y) ≤ ∑ t ∈ Finset.range (y + 1), e t (s t) := by
  intro y
  induction y with
  | zero =>
    rw [Finset.sum_range_one, dp_zero]
  | succ y ih =>
    rw [Finset.sum_range_succ]
    have step : dp e width (y + 1) (s (y + 1)) ≤
        dp e width y (s y) + e (y + 1) (s (y + 1)) := by
      rcases hadj y with h | h | h
      · rw [h]
        exact dp_succ_le_above e width y (s (y + 1))
      · have hx : 0 < s (y + 1) := by omega
        have hp : s y = s (y + 1) - 1 := by omega
        rw [hp]
        exact dp_succ_le_left e width y (s (y + 1)) hx
      · have hx : s (y + 1) < width - 1 := by
          have := hb y
          omega
        rw [h]
        exact dp_succ_le_right e width y (s (y + 1)) hx
    exact le_trans step (add_le_add_right ih _)

lemma greedyX_adj (y : Nat) :
    greedyX e width y = greedyX e width (y + 1) ∨
    greedyX e width y + 1 = greedyX e width (y + 1) ∨
    greedyX e width y = greedyX e width (y + 1) + 1 := by
  have h : greedyX e width (y + 1) = pick3 (e (y + 1)) width (greedyX e width y) := by
    rw [greedyX]
  rw [h]
  rcases pick3_mem (e (y + 1)) width (greedyX e width y) with hm | ⟨hc, hm⟩ | ⟨hc, hm⟩ <;>
    rw [hm] <;> omega

/-- The seam reconstructed by the DP backtrack achieves the DP value: its
cost over the first `y + 1` rows is at most `dp y (dynX y)`. -/
lemma dyn_cost_le_dp (height : Nat) :
    ∀ y < height,
      ∑ t ∈ Finset.range (y + 1), e t (dynX e width height t) ≤
        dp e width y (dynX e width height y) := by
  intro y
  induction y with
  | zero =>
    intro _
    rw [Finset.sum_range_one, dp_zero]
  | succ y ih =>
    intro hy
    have hrel := dynX_succ e width height y hy
    have hub : dp e width y (dynX e width height y) ≤
        dp e width y (dynX e width height (y + 1)) := by
      rw [hrel]
      exact pick3_le_self (fun x => dp e width y x) width _
    have hubl : 0 < dynX e width height (y + 1) →
        dp e width y (dynX e width height y) ≤
          dp e width y (dynX e width height (y + 1) - 1) := by
      intro hc
      rw [hrel]
      exact pick3_le_left (fun x => dp e width y x) width _ hc
    have hubr : dynX e width height (y + 1) < width - 1 →
        dp e width y (dynX e width height y) ≤
          dp e width y (dynX e width height (y + 1) + 1) := by
      intro hc
      rw [hrel]
      exact pick3_le_right (fun x => dp e width y x) width _ hc
    rw [Finset.sum_range_succ]
    have hsum : ∑ t ∈ Finset.range (y + 1), e t (dynX e width height t) +
          e (y + 1) (dynX e width height (y + 1)) ≤
        dp e width y (dynX e width height y) +
          e (y + 1) (dynX e width height (y + 1)) :=
      add_le_add_right (ih (by omega)) _
    refine le_trans hsum (le_dp_succ e width y _ _ ?_ ?_ ?_)
    · exact add_le_add_right hub _
    · exact fun hc => add_le_add_right (hubl hc) _
    · exact fun hc => add_le_add_right (hubr hc) _

lemma dynX_last (height : Nat) :
    dynX e width height (height - 1) =
      minScan (fun x => dp e width (height - 1) x) (width - 1) := by
  rw [dynX, Nat.sub_self, dynFromBot]

end DPLemmas

/-- C1: on every energy matrix with `width ≥ 1` and `height ≥ 1`, the
total seam cost of the seam found by `find_low_energy_seam_dyn` is at
most the total cost of the seam found by `find_low_energy_seam_greedy`. -/
theorem dyn_cost_le_greedy_cost {α : Type} [LinearOrderedAddCommMonoid α]
    (e : Nat → Nat → α) (width height : Nat) (hw : 1 ≤ width) (hh : 1 ≤ height) :
    seamCost e height (find_low_energy_seam_dyn e width height) ≤
      seamCost e height (find_low_energy_seam_greedy e width height) := by
  have hdyn : seamCost e height (find_low_energy_seam_dyn e width height) =
      ∑ y ∈ Finset.range height, e y (dynX e width height y) := by
    refine Finset.sum_congr rfl fun y hy => ?_
    rw [find_low_energy_seam_dyn, getD_map_range _ _ (Finset.mem_range.mp hy)]
  have hgre : seamCost e height (find_low_energy_seam_greedy e width height) =
      ∑ y ∈ Finset.range height, e y (greedyX e width y) := by
    refine Finset.sum_congr rfl fun y hy => ?_
    rw [find_low_energy_seam_greedy, getD_map_range _ _ (Finset.mem_range.mp hy)]
  rw [hdyn, hgre]
  have hht : height - 1 + 1 = height := by omega
  have h1 := dyn_cost_le_dp e width height (height - 1) (by omega : height - 1 < height)
  rw [hht] at h1
  have h2 : dp e width (height - 1) (dynX e width height (height - 1)) ≤
      dp e width (height - 1) (greedyX e width (height - 1)) := by
    rw [dynX_last]
    exact minScan_min (fun x => dp e width (height - 1) x) (width - 1)
      (greedyX e width (height - 1)) (by have := greedyX_lt e width hw (height - 1); omega)
  have h3 := dp_le_cost e width (greedyX e width) (greedyX_lt e width hw)
    (greedyX_adj e width) (height - 1)
  rw [hht] at h3
  exact le_trans h1 (le_trans h2 h3)

/-- Witness for `dyn_cost_le_greedy_cost` at a concrete 3×4 energy matrix
(the scenario of spec §8). -/
theorem dyn_cost_le_greedy_cost_witness :
    seamCost (fun y x => if (y, x) ∈ [(0, 1), (1, 2), (2, 1)] then (1 : ℚ) else 9) 3
        (find_low_energy_seam_dyn
          (fun y x => if (y, x) ∈ [(0, 1), (1, 2), (2, 1)] then (1 : ℚ) else 9) 4 3) ≤
      seamCost (fun y x => if (y, x) ∈ [(0, 1), (1, 2), (2, 1)] then (1 : ℚ) else 9) 3
        (find_low_energy_seam_greedy
          (fun y x => if (y, x) ∈ [(0, 1), (1, 2), (2, 1)] then (1 : ℚ) else 9) 4 3) :=
  dyn_cost_le_greedy_cost
    (fun y x => if (y, x) ∈ [(0, 1), (1, 2), (2, 1)] then (1 : ℚ) else 9) 4 3
    (by norm_num) (by norm_num)

/-- Sobel horizontal kernel of seam_carving.cpp:146, indexed by
`[ky + 1][kx + 1]` as the C++ loop does. -/
def sobel_x : Nat → Nat → ℤ
  | 0, 0 => -1
  | 0, 2 => 1
  | 1, 0 => -2
  | 1, 2 => 2
  | 2, 0 => -1
  | 2, 2 => 1
  | _, _ => 0

/-- Sobel vertical kernel of seam_carving.cpp:147. -/
def sobel_y : Nat → Nat → ℤ
  | 0, 0 => -1
  | 0, 1 => -2
  | 0, 2 => -1
  | 2, 0 => 1
  | 2, 1 => 2
  | 2, 2 => 1
  | _, _ => 0

/-- Grayscale conversion at flat sample index `idx`
(seam_carving.cpp:159): `0.299 R + 0.587 G + 0.114 B`, the `float`
coefficients modelled exactly as rationals. -/
def grayAt (p : Nat → ℕ) (idx : Nat) : ℚ :=
  299 / 1000 * (p idx : ℚ) + 587 / 1000 * (p (idx + 1) : ℚ) +
    114 / 1000 * (p (idx + 2) : ℚ)

/-- Accumulated `gx` of the Sobel convolution loop
(seam_carving.cpp:154-163): `ky`, `kx` run over `0..2` standing for the
C++ `-1..1`, so the sample index is `((y + ky - 1) * width + (x + kx - 1)) * channels`. -/
def gxAt (p : Nat → ℕ) (width channels y x : Nat) : ℚ :=
  ∑ ky ∈ Finset.range 3, ∑ kx ∈ Finset.range 3,
    grayAt p (((y + ky - 1) * width + (x + kx - 1)) * channels) * ((sobel_x ky kx : ℤ) : ℚ)

/-- Accumulated `gy` of the Sobel convolution loop. -/
def gyAt (p : Nat → ℕ) (width channels y x : Nat) : ℚ :=
  ∑ ky ∈ Finset.range 3, ∑ kx ∈ Finset.range 3,
    grayAt p (((y + ky - 1) * width + (x + kx - 1)) * channels) * ((sobel_y ky kx : ℤ) : ℚ)

/-- One cell of the energy matrix built by `calculate_energy`: the
matrix starts as all zeros (seam_carving.cpp:143) and only interior
cells (`1 ≤ y < height - 1`, `1 ≤ x < width - 1`, the loop bounds of
lines 149-150) are overwritten with `sqrt(gx * gx + gy * gy)`. -/
noncomputable def energyEntry (p : Nat → ℕ) (width height channels y x : Nat) : ℝ :=
  if 1 ≤ y ∧ y < height - 1 ∧ 1 ≤ x ∧ x < width - 1 then
    Real.sqrt ((gxAt p width channels y x : ℝ) * (gxAt p width channels y x : ℝ) +
      (gyAt p width channels y x : ℝ) * (gyAt p width channels y x : ℝ))
  else 0

/-- Embedding of `calculate_energy` (seam_carving.cpp:140-171). -/
noncomputable def calculate_energy (p : Nat → ℕ) (width height channels : Nat) :
    List (List ℝ) :=
  (List.range height).map fun y => (List.range width).map fun x =>
    energyEntry p width height channels y x

/-- Luminance of the RGB pixel at `(x, y)`, written from the spec's
formula `L = 0.299R + 0.587G + 0.114B` (spec §4.1). -/
def lum (p : Nat → ℕ) (width x y : Nat) : ℚ :=
  299 / 1000 * (p ((y * width + x) * 3) : ℚ) +
    587 / 1000 * (p ((y * width + x) * 3 + 1) : ℚ) +
    114 / 1000 * (p ((y * width + x) * 3 + 2) : ℚ)

/-- The horizontal Sobel response written out from the spec's kernel
`Gx = [[-1,0,1],[-2,0,2],[-1,0,1]]` applied to the luminance field. -/
def specGx (p : Nat → ℕ) (width x y : Nat) : ℚ :=
  -lum p width (x - 1) (y - 1) + lum p width (x + 1) (y - 1)
    - 2 * lum p width (x - 1) y + 2 * lum p width (x + 1) y
    - lum p width (x - 1) (y + 1) + lum p width (x + 1) (y + 1)

/-- The vertical Sobel response written out from the spec's kernel
`Gy = [[-1,-2,-1],[0,0,0],[1,2,1]]` applied to the luminance field. -/
def specGy (p : Nat → ℕ) (width x y : Nat) : ℚ :=
  -lum p width (x - 1) (y - 1) - 2 * lum p width x (y - 1) - lum p width (x + 1) (y - 1)
    + lum p width (x - 1) (y + 1) + 2 * lum p width x (y + 1) + lum p width (x + 1) (y + 1)

lemma add_two_sub_one (a : Nat) : a + 2 - 1 = a + 1 := by omega

lemma gxAt_spec (p : Nat → ℕ) (width y x : Nat) (hy : 1 ≤ y) (hx : 1 ≤ x) :
    gxAt p width 3 y x = specGx p width x y := by
  obtain ⟨y', rfl⟩ : ∃ y', y = y' + 1 := ⟨y - 1, by omega⟩
  obtain ⟨x', rfl⟩ : ∃ x', x = x' + 1 := ⟨x - 1, by omega⟩
  simp only [gxAt, specGx, Finset.sum_range_succ, Finset.sum_range_zero, sobel_x,
    grayAt, lum, Nat.add_zero, Nat.add_sub_cancel, add_two_sub_one]
  push_cast
  ring

lemma gyAt_spec (p : Nat → ℕ) (width y x : Nat) (hy : 1 ≤ y) (hx : 1 ≤ x) :
    gyAt p width 3 y x = specGy p width x y := by
  obtain ⟨y', rfl⟩ : ∃ y', y = y' + 1 := ⟨y - 1, by omega⟩
  obtain ⟨x', rfl⟩ : ∃ x', x = x' + 1 := ⟨x - 1, by omega⟩
  simp only [gyAt, specGy, Finset.sum_range_succ, Finset.sum_range_zero, sobel_y,
    grayAt, lum, Nat.add_zero, Nat.add_sub_cancel, add_two_sub_one]
  push_cast
  ring

/-- C3: on an RGB buffer (`channels = 3`), `calculate_energy` returns a
`height × width` matrix whose interior cells hold
`sqrt(Gx² + Gy²)` of the spec's Sobel kernels applied to the luminance
field, and whose border cells hold exactly 0. -/
theorem calculate_energy_sobel (p : Nat → ℕ) (width height y x : Nat)
    (hy : y < height) (hx : x < width) :
    (calculate_energy p width height 3).length = height ∧
    ((calculate_energy p width height 3).getD y []).length = width ∧
    ((calculate_energy p width height 3).getD y []).getD x 0 =
      if 1 ≤ y ∧ y < height - 1 ∧ 1 ≤ x ∧ x < width - 1 then
        Real.sqrt ((specGx p width x y : ℝ) ^ 2 + (specGy p width x y : ℝ) ^ 2)
      else 0 := by
  refine ⟨by simp [calculate_energy], ?_, ?_⟩
  · rw [calculate_energy, getD_map_range _ _ hy]
    simp
  · rw [calculate_energy, getD_map_range _ _ hy, getD_map_range _ _ hx, energyEntry]
    split_ifs with h
    · rw [gxAt_spec p width y x h.1 h.2.2.1, gyAt_spec p width y x h.1 h.2.2.1]
      ring_nf
    · rfl

/-- Witness for `calculate_energy_sobel` on a 3×3 all-zero image at the
interior cell (1, 1). -/
theorem calculate_energy_sobel_witness :
    (calculate_energy (fun _ => 0) 3 3 3).length = 3 ∧
    ((calculate_energy (fun _ => 0) 3 3 3).getD 1 []).length = 3 ∧
    ((calculate_energy (fun _ => 0) 3 3 3).getD 1 []).getD 1 0 =
      if 1 ≤ 1 ∧ 1 < 3 - 1 ∧ 1 ≤ 1 ∧ 1 < 3 - 1 then
        Real.sqrt ((specGx (fun _ => 0) 3 1 1 : ℝ) ^ 2 + (specGy (fun _ => 0) 3 1 1 : ℝ) ^ 2)
      else 0 :=
  calculate_energy_sobel (fun _ => 0) 3 3 1 1 (by norm_num) (by norm_num)

/-- Embedding of the guard structure of `calculate_energy_gpu`
(gpu_energy.cpp:211-225): an empty result when the backend was never
initialized and when `channels ≠ 3`. Modelled from the spec: the device
render pass itself (gpu_energy.cpp:227-298, OpenGL state and shader
execution) has no shallow embedding; per spec §4.1 the reference
semantics must hold for any backend, so a successful render is modelled
as the reference CPU energy matrix. -/
noncomputable def calculate_energy_gpu (ready : Bool) (p : Nat → ℕ)
    (width height channels : Nat) : List (List ℝ) :=
  if !ready then []
  else if channels ≠ 3 then []
  else calculate_energy p width height channels

/-- C8 (amended): the accelerated backend fails, returning an empty
result, whenever `channels ≠ 3` or it has not been initialized. -/
theorem gpu_energy_rejects (ready : Bool) (p : Nat → ℕ)
    (width height channels : Nat) (h : channels ≠ 3 ∨ ready = false) :
    calculate_energy_gpu ready p width height channels = [] := by
  rw [calculate_energy_gpu]
  rcases h with h | h
  · split_ifs <;> rfl
  · rw [h]
    rfl

/-- Witness for `gpu_energy_rejects` at `channels = 4` on an initialized
backend. -/
theorem gpu_energy_rejects_witness :
    calculate_energy_gpu true (fun _ => 0) 2 2 4 = [] :=
  gpu_energy_rejects true (fun _ => 0) 2 2 4 (Or.inl (by norm_num))

/-- Counterexample to C8 as stated: the CPU `calculate_energy` performs
no channel check at all; called with `channels = 4` it does not fail but
returns a full `height`-row matrix. -/
theorem cpu_energy_no_channel_check :
    calculate_energy (fun _ => 0) 3 3 4 ≠ [] := by
  intro hcontra
  have hlen : (calculate_energy (fun _ => 0) 3 3 4).length = 3 := by
    simp [calculate_energy]
  rw [hcontra] at hlen
  simp at hlen

/-- Concatenation of the lists produced by `f` over a list of indices. -/
def concatMap {β : Type} (f : Nat → List β) : List Nat → List β
  | [] => []
  | a :: l => f a ++ concatMap f l

/-- Concatenation of a list of lists. -/
def flattenL {β : Type} : List (List β) → List β
  | [] => []
  | a :: l => a ++ flattenL l

/-- The `channels` samples of the pixel at column `x` of row `y` in a
buffer of the given `width`, in sample order. -/
def pixelBlock (p : Nat → ℕ) (width channels y x : Nat) : List ℕ :=
  (List.range channels).map fun c => p ((y * width + x) * channels + c)

/-- Embedding of `remove_seam` (seam_carving.cpp:173-204): the output
buffer row by row; each row copies, in left-to-right order, the
`channels` samples of every column whose index differs from `seam[y]`.
The C++ code writes row `y`'s surviving pixels at consecutive
destination indices starting at `y * (width - 1) * channels` into a
buffer of size `(width - 1) * height * channels`; when a row's seam
entry is out of `[0, width - 1]` no column is skipped and the writes
run one pixel past the row's region (overwritten by the next row, and
undefined behavior at the last row), which is modelled by keeping the
first `width - 1` surviving pixels of each row. A missing seam entry
(`seam` shorter than `height`, an out-of-bounds read in C++) is
modelled as `getD`'s default 0. -/
def remove_seam (p : Nat → ℕ) (width height channels : Nat) (seam : List Nat) :
    List ℕ :=
  concatMap (fun y =>
      concatMap (pixelBlock p width channels y)
        (((List.range width).filter (fun x => x ≠ seam.getD y 0)).take (width - 1)))
    (List.range height)

section RemoveSeamLemmas

lemma concatMap_length_const {β : Type} (f : Nat → List β) (c : Nat) :
    ∀ l : List Nat, (∀ a ∈ l, (f a).length = c) → (concatMap f l).length = l.length * c := by
  intro l
  induction l with
  | nil => intro _; simp [concatMap]
  | cons a l ih =>
    intro hf
    rw [concatMap, List.length_append, ih (fun b hb => hf b (List.mem_cons_of_mem a hb)),
      hf a (List.mem_cons_self a l), List.length_cons]
    ring

lemma concatMap_congr {β : Type} (f g : Nat → List β) :
    ∀ l : List Nat, (∀ a ∈ l, f a = g a) → concatMap f l = concatMap g l := by
  intro l
  induction l with
  | nil => intro _; rfl
  | cons a l ih =>
    intro hfg
    rw [concatMap, concatMap, hfg a (List.mem_cons_self a l),
      ih (fun b hb => hfg b (List.mem_cons_of_mem a hb))]

lemma concatMap_eq_flattenL_map {β : Type} (f : Nat → List β) :
    ∀ l : List Nat, concatMap f l = flattenL (l.map f) := by
  intro l
  induction l with
  | nil => rfl
  | cons a l ih => rw [concatMap, List.map_cons, flattenL, ih]

lemma map_eraseIdx {β γ : Type} (f : β → γ) :
    ∀ (l : List β) (n : Nat), (l.eraseIdx n).map f = (l.map f).eraseIdx n := by
  intro l
  induction l with
  | nil => intro n; rfl
  | cons a l ih =>
    intro n
    cases n with
    | zero => rfl
    | succ n => simp [List.eraseIdx, ih n]

lemma filter_ne_range (w sx : Nat) (h : sx < w) :
    (List.range w).filter (fun x => x ≠ sx) = (List.range w).eraseIdx sx := by
  induction w with
  | zero => omega
  | succ w ih =>
    rw [List.range_succ, List.filter_append]
    rcases Nat.lt_or_ge sx w with hlt | hge
    · rw [ih hlt, List.eraseIdx_append_of_lt_length (by simp; omega)]
      congr 1
      have : (w ≠ sx) = True := by simp; omega
      simp [this]
    · have hsx : sx = w := by omega
      subst hsx
      rw [List.eraseIdx_append_of_length_le (by simp)]
      simp only [List.length_range, Nat.sub_self]
      rw [List.filter_eq_self.mpr]
      · simp [List.eraseIdx]
      · intro a ha
        have : a < sx := List.mem_range.mp ha
        simp
        omega

lemma length_filter_ne_range (w sx : Nat) :
    ((List.range w).filter (fun x => x ≠ sx)).length =
      if sx < w then w - 1 else w := by
  rcases Nat.lt_or_ge sx w with hlt | hge
  · rw [if_pos hlt, filter_ne_range w sx hlt, List.length_eraseIdx]
    simp only [List.length_range]
    rw [if_pos hlt]
  · rw [if_neg (by omega), List.filter_eq_self.mpr, List.length_range]
    intro a ha
    have : a < w := List.mem_range.mp ha
    simp
    omega

lemma remove_seam_row_length (p : Nat → ℕ) (width channels y : Nat) (sx : Nat) :
    (concatMap (pixelBlock p width channels y)
      (((List.range width).filter (fun x => x ≠ sx)).take (width - 1))).length =
      (width - 1) * channels := by
  rw [concatMap_length_const _ channels _ (fun a _ => by simp [pixelBlock]),
    List.length_take, length_filter_ne_range]
  split_ifs
  · rw [Nat.min_self]
  · rw [Nat.min_eq_left (by omega)]

/-- The output of `remove_seam` always has size
`(width - 1) * height * channels`, whatever the seam: the C++ function
performs no validation and allocates this size unconditionally. -/
lemma remove_seam_length (p : Nat → ℕ) (width height channels : Nat)
    (seam : List Nat) :
    (remove_seam p width height channels seam).length =
      (width - 1) * height * channels := by
  rw [remove_seam, concatMap_length_const _ ((width - 1) * channels) _
    (fun y _ => remove_seam_row_length p width channels y _), List.length_range]
  ring

end RemoveSeamLemmas

/-- C5: for a buffer of `width ≥ 1` columns and a well-formed seam
(length `height`, every entry in `[0, width - 1]`), `remove_seam`
returns a buffer of length `(width - 1) * height * channels` equal,
row by row, to the input row with exactly the `seam[y]`-th pixel
deleted, the remaining pixels in original order and each pixel's
`channels` samples contiguous. -/
theorem remove_seam_deletes_seam_pixel (p : Nat → ℕ)
    (width height channels : Nat) (seam : List Nat) (hw : 1 ≤ width)
    (hlen : seam.length = height) (hb : ∀ y < height, seam.getD y 0 < width) :
    (remove_seam p width height channels seam).length =
      (width - 1) * height * channels ∧
    remove_seam p width height channels seam =
      concatMap (fun y =>
          flattenL (((List.range width).map (pixelBlock p width channels y)).eraseIdx
            (seam.getD y 0)))
        (List.range height) := by
  refine ⟨remove_seam_length p width height channels seam, ?_⟩
  rw [remove_seam]
  refine concatMap_congr _ _ _ fun y hy => ?_
  have hsx : seam.getD y 0 < width := hb y (List.mem_range.mp hy)
  rw [filter_ne_range width _ hsx, List.take_of_length_le
    (by rw [List.length_eraseIdx]
        simp only [List.length_range]
        rw [if_pos hsx]),
    ← map_eraseIdx, concatMap_eq_flattenL_map]

/-- Witness for `remove_seam_deletes_seam_pixel` on a concrete 3×2
buffer with 1 channel and the seam `[1, 0]`. -/
theorem remove_seam_deletes_seam_pixel_witness :
    (remove_seam (fun i => i + 10) 3 2 1 [1, 0]).length = (3 - 1) * 2 * 1 ∧
    remove_seam (fun i => i + 10) 3 2 1 [1, 0] =
      concatMap (fun y =>
          flattenL (((List.range 3).map (pixelBlock (fun i => i + 10) 3 1 y)).eraseIdx
            ([1, 0].getD y 0)))
        (List.range 2) :=
  remove_seam_deletes_seam_pixel (fun i => i + 10) 3 2 1 [1, 0] (by norm_num)
    (by norm_num) (by decide)

/-- C9 (amended): `remove_seam` performs no seam validation and never
signals an error: for every seam, well-formed or not, it returns a
normally-built buffer of length `(width - 1) * height * channels`. -/
theorem remove_seam_no_validation (p : Nat → ℕ)
    (width height channels : Nat) (seam : List Nat) :
    (remove_seam p width height channels seam).length =
      (width - 1) * height * channels :=
  remove_seam_length p width height channels seam

/-- Counterexample to C9 as stated: a malformed seam (entry 5 out of the
valid column range `[0, 1]` of a width-2 buffer) does not make
`remove_seam` fail with a bounds error; it returns a normal non-empty
buffer. -/
theorem remove_seam_malformed_no_failure :
    remove_seam (fun i => i) 2 1 1 [5] = [0] ∧
      remove_seam (fun i => i) 2 1 1 [5] ≠ [] := by
  constructor <;> decide

/-- The seam-removal loop of `reduce_width_iteratively`
(seam_carving.cpp:241-277), by the number of remaining iterations: each
pass recomputes the energy of the current buffer, finds a seam with the
selected algorithm, removes it and decrements the width. The progress
logging of the C++ loop has no observable effect on the result and is
not modelled. -/
noncomputable def carveLoop (height channels : Nat) (algorithm : Algorithm) :
    Nat → List ℕ → Nat → List ℕ × Nat
  | 0, cur, w => (cur, w)
  | n + 1, cur, w =>
    carveLoop height channels algorithm n
      (remove_seam (fun i => cur.getD i 0) w height channels
        (find_low_energy_seam
          (fun y x =>
            ((calculate_energy (fun i => cur.getD i 0) w height channels).getD y []).getD x 0)
          w height algorithm))
      (w - 1)

/-- Embedding of `reduce_width_iteratively` (seam_carving.cpp:206-282):
copy-and-return when `target_width ≥ original_width`, empty result and
width 0 when `target_width ≤ 0`, otherwise the seam-removal loop run
`original_width - target_width` times (the C++ `while (current_width >
target_width)` with `current_width--` per iteration). `target_width` is
kept as `ℤ` to model the C++ `int` argument, which may be ≤ 0. -/
noncomputable def reduce_width_iteratively (p : Nat → ℕ)
    (original_width height channels : Nat) (target_width : ℤ)
    (algorithm : Algorithm) : List ℕ × Nat :=
  if (original_width : ℤ) ≤ target_width then
    ((List.range (original_width * height * channels)).map p, original_width)
  else if target_width ≤ 0 then ([], 0)
  else
    carveLoop height channels algorithm (original_width - target_width.toNat)
      ((List.range (original_width * height * channels)).map p) original_width

section DriverLemmas

lemma carveLoop_width (height channels : Nat) (algorithm : Algorithm) :
    ∀ (n : Nat) (cur : List ℕ) (w : Nat),
      (carveLoop height channels algorithm n cur w).2 = w - n := by
  intro n
  induction n with
  | zero => intro cur w; rfl
  | succ n ih =>
    intro cur w
    rw [carveLoop, ih]
    omega

lemma carveLoop_length (height channels : Nat) (algorithm : Algorithm) :
    ∀ (n : Nat) (cur : List ℕ) (w : Nat), cur.length = w * height * channels →
      (carveLoop height channels algorithm n cur w).1.length =
        (w - n) * height * channels := by
  intro n
  induction n with
  | zero => intro cur w hcur; exact hcur
  | succ n ih =>
    intro cur w _
    rw [carveLoop, ih _ _ (remove_seam_length _ w height channels _)]
    congr 2
    omega

end DriverLemmas

/-- C6: when `target_width ≥ original_width`, `reduce_width_iteratively`
returns a byte-identical copy of the input buffer together with the
original width (a no-op, not an error). -/
theorem reduce_width_noop (p : Nat → ℕ) (original_width height channels : Nat)
    (target_width : ℤ) (algorithm : Algorithm)
    (ht : (original_width : ℤ) ≤ target_width) :
    reduce_width_iteratively p original_width height channels target_width algorithm =
      ((List.range (original_width * height * channels)).map p, original_width) := by
  rw [reduce_width_iteratively, if_pos ht]

/-- Witness for `reduce_width_noop` with `target_width = 3` on a width-2
buffer. -/
theorem reduce_width_noop_witness :
    reduce_width_iteratively (fun i => i) 2 1 1 3 Algorithm.GREEDY =
      ((List.range (2 * 1 * 1)).map (fun i => i), 2) :=
  reduce_width_noop (fun i => i) 2 1 1 3 Algorithm.GREEDY (by norm_num)

/-- Counterexample to C7 as stated: with `target_width = 10` on an image
of width 5 (so `target_width > 0`), the returned final width is the
original width 5, not `max(target_width, 1) = 10`. -/
theorem reduce_width_target_above_width :
    (reduce_width_iteratively (fun _ => 0) 5 1 1 10 Algorithm.GREEDY).2 ≠
      max (Int.toNat 10) 1 := by
  rw [reduce_width_iteratively, if_pos (by norm_num)]
  decide

/-- C7 (amended): for `target_width > 0` the returned final width is
`min(original_width, target_width)`; the loop removes one seam and
decrements the width by exactly 1 per iteration, so it runs
`original_width - target_width` times when `target_width < original_width`. -/
theorem reduce_width_final_width (p : Nat → ℕ)
    (original_width height channels : Nat) (target_width : ℤ)
    (algorithm : Algorithm) (ht : 0 < target_width) :
    (reduce_width_iteratively p original_width height channels target_width
        algorithm).2 = min original_width target_width.toNat := by
  rw [reduce_width_iteratively]
  split_ifs with h1 h2
  · rw [Nat.min_eq_left (by omega)]
  · exfalso
    omega
  · rw [carveLoop_width, Nat.min_eq_right (by omega)]
    omega

/-- Witness for `reduce_width_final_width` at `target_width = 2` on a
width-3 buffer. -/
theorem reduce_width_final_width_witness :
    (reduce_width_iteratively (fun i => i) 3 1 1 2 Algorithm.DYNAMIC).2 =
      min 3 (Int.toNat 2) :=
  reduce_width_final_width (fun i => i) 3 1 1 2 Algorithm.DYNAMIC (by norm_num)

/-- C10: in every branch of `reduce_width_iteratively` (no-op copy,
invalid target, seam-removal loop) the returned buffer's length equals
`final_width * height * channels`. -/
theorem reduce_width_length_invariant (p : Nat → ℕ)
    (original_width height channels : Nat) (target_width : ℤ)
    (algorithm : Algorithm) :
    (reduce_width_iteratively p original_width height channels target_width
        algorithm).1.length =
      (reduce_width_iteratively p original_width height channels target_width
        algorithm).2 * height * channels := by
  rw [reduce_width_iteratively]
  split_ifs
  · simp
  · simp
  · rw [carveLoop_width, carveLoop_length _ _ _ _ _ _ (by simp)]

end SeamCarving
